import Mathlib

set_option maxRecDepth 100000

/-!
Verification development for `slurmbuilder` (src/slurmbuilder/slurmbuilder.py).

The repository builds, from an ordered list of parameter axes
(`iteration_list`, entries with fields "name", "id", "values"), one shell
script per element of the cross product of all axis value lists, plus a
manifest file `runcommands.sh` listing one `sbatch <path>` line per script.

The embedding below models the pure rendering pipeline of
`SlurmBuilder.build_shfiles` and its helpers.  File I/O is modelled as the
ordered list of (path, content) pairs that the run writes, and the file
system as a map from path to content on which those writes are applied in
order.  Python values that can occur in an axis's value list are modelled by
`PyVal`: integers, strings and (nonempty) sequences; an empty sequence as an
axis value would make `value[0]` in the source raise `IndexError`, a crash
path no property here exercises, so the model restricts sequences to be
nonempty by construction.  Python's `str()` of an int and the `repr`-based
rendering of a list are reproduced by `intStr` / `reprPy`.
-/

/-- Decimal string of an integer, as Python's `str` renders it. -/
def intStr : Int → String
  | Int.ofNat n => Nat.repr n
  | Int.negSucc n => "-" ++ Nat.repr (n + 1)

/-- A Python value usable as an axis value: an int, a string, or a nonempty
sequence (list/tuple) with head `hd` and tail `tl`. -/
inductive PyVal where
  | int (n : Int)
  | str (s : String)
  | seq (hd : PyVal) (tl : List PyVal)

instance : Inhabited PyVal := ⟨PyVal.int 0⟩

mutual

/-- Python `repr` of a value (used for elements inside a rendered list). -/
def reprPy : PyVal → String
  | PyVal.int n => intStr n
  | PyVal.str s => "'" ++ s ++ "'"
  | PyVal.seq hd tl => "[" ++ reprList hd tl ++ "]"
termination_by v => sizeOf v

/-- `repr`s of a nonempty list of values, comma-separated as Python prints them. -/
def reprList : PyVal → List PyVal → String
  | v, [] => reprPy v
  | v, w :: ws => reprPy v ++ ", " ++ reprList w ws
termination_by v vs => sizeOf v + sizeOf vs

end

/-- Python `str` / f-string rendering of a value (`f"{value}"` in the source). -/
def displayTop : PyVal → String
  | PyVal.int n => intStr n
  | PyVal.str s => s
  | PyVal.seq hd tl => "[" ++ reprList hd tl ++ "]"

/-- The value used for the identifier fragment: `value[0]` when the value is a
sequence (`isinstance(value, (list, tuple, np.ndarray))` in the source),
otherwise the value itself. -/
def idFragVal : PyVal → PyVal
  | PyVal.seq hd _ => hd
  | v => v

/-- `itertools.product(*arg_vals)`: row-major cross product (last list varies
fastest). -/
def crossProd {α : Type} : List (List α) → List (List α)
  | [] => [[]]
  | vs :: rest => vs.flatMap fun v => (crossProd rest).map fun c => v :: c

/-- Product of the lengths of the value lists: the number of combinations. -/
def lenProd {α : Type} : List (List α) → Nat
  | [] => 1
  | vs :: rest => vs.length * lenProd rest

/-- The combination at row-major index `i`: component `j` is entry
`i / (product of later sizes) % size_j` of axis `j`. -/
def rowCombo {α : Type} [Inhabited α] : List (List α) → Nat → List α
  | [], _ => []
  | vs :: rest, i => vs.getD (i / lenProd rest) default :: rowCombo rest (i % lenProd rest)

/-- Python `s[:-1]`: drop the last character (identity on the empty string). -/
def strDropLast (s : String) : String := ⟨s.data.dropLast⟩

/-- Does `n` occur at the head of `h`? (character-list matcher used to state
containment of a line in a rendered script). -/
def leadMatch : List Char → List Char → Bool
  | [], _ => true
  | _ :: _, [] => false
  | a :: as, b :: bs => a == b && leadMatch as bs

/-- Does `n` occur contiguously anywhere in the second list? -/
def hasSub (n : List Char) : List Char → Bool
  | [] => n.isEmpty
  | h :: t => leadMatch n (h :: t) || hasSub n t

/-- One axis of the sweep: an entry of `iteration_list` with keys
"name", "id", "values". -/
structure Axis where
  name : String
  id : String
  values : List PyVal

/-- The fields of a `SlurmBuilder` instance that the generation pipeline
reads.  `slurm_config` is the insertion-ordered dict built in `__init__`. -/
structure Builder where
  job_name : String
  base_command : String
  pre_command : String
  post_command : String
  slurm_config : List (String × String)
  runscript_outdir : String
  iteration_list : List Axis

/-- The full `slurm_config` dict exactly as `__init__` builds it, in insertion
order. -/
def mkSlurmConfig (mail_user mail_type partition job_name output_filename
    array time nodes tasks_per_node ntasks mincpus cpus_per_task
    mem_per_cpu : String) : List (String × String) :=
  [("mail-user", mail_user), ("mail-type", mail_type), ("partition", partition),
   ("job-name", job_name), ("output", output_filename), ("array", array),
   ("time", time), ("nodes", nodes), ("tasks-per-node", tasks_per_node),
   ("ntasks", ntasks), ("mincpus", mincpus), ("cpus-per-task", cpus_per_task),
   ("mem-per-cpu", mem_per_cpu)]

/-- The value a config entry is rendered with: `command_value += f"_{id}"`
when the entry is `job-name` and the identifier is nonempty. -/
def renderedVal (job_name_identifier n v : String) : String :=
  if n = "job-name" ∧ 0 < job_name_identifier.length then v ++ "_" ++ job_name_identifier else v

/-- The `#SBATCH` lines of the header: one per config entry whose (possibly
suffixed) value is truthy, rendered from the template
`"#SBATCH --" name "=" value "\n"`. -/
def headerEntries (job_name_identifier : String) : List (String × String) → String
  | [] => ""
  | (n, v) :: rest =>
      (if renderedVal job_name_identifier n v = "" then ""
       else "#SBATCH --" ++ n ++ "=" ++ renderedVal job_name_identifier n v ++ "\n") ++
      headerEntries job_name_identifier rest

/-- `SlurmBuilder.build_slurm_header`. -/
def build_slurm_header (b : Builder) (job_name_identifier : String) : String :=
  "#!/bin/bash\n#\n" ++ headerEntries job_name_identifier b.slurm_config ++ "\n"

/-- The ` --{key} {val}` fragments appended to the base command, in order. -/
def argsText : List (String × PyVal) → String
  | [] => ""
  | (k, v) :: rest => " --" ++ k ++ " " ++ displayTop v ++ argsText rest

/-- `SlurmBuilder.build_maincommand` on an ordered kwargs list. -/
def build_maincommand (b : Builder) (kwargs : List (String × PyVal)) : String :=
  b.base_command ++ argsText kwargs

/-- `SlurmBuilder.build_shfile_body`: header, precommands, main command,
postcommands, joined by single newline characters. -/
def build_shfile_body (b : Builder) (job_name_identifier : String)
    (kwargs : List (String × PyVal)) : String :=
  build_slurm_header b job_name_identifier ++ "\n" ++ b.pre_command ++ "\n" ++
    build_maincommand b kwargs ++ "\n" ++ b.post_command

/-- `SlurmBuilder.build_shfilename`. -/
def build_shfilename (b : Builder) (job_name_identifier : String) : String :=
  b.runscript_outdir ++ "/run_" ++ b.job_name ++ "_" ++ job_name_identifier ++ ".sh"

/-- `SlurmBuilder.build_spawn_command` with `to_args=False`. -/
def build_spawn_command (shfilename : String) : String := "sbatch " ++ shfilename

/-- The loop of `build_shfiles` that accumulates
`job_id += f"{arg_id}{v}_"` over the zipped (id, value) pairs. -/
def jobIdLoop : String → List (String × PyVal) → String
  | acc, [] => acc
  | acc, (i, v) :: rest => jobIdLoop (acc ++ i ++ displayTop (idFragVal v) ++ "_") rest

/-- The job-name identifier of one combination: the accumulated fragments with
the final character (`job_id[:-1]`) removed. -/
def build_job_id (ps : List (String × PyVal)) : String := strDropLast (jobIdLoop "" ps)

/-- The identifier fragment an (id, value) pair contributes. -/
def fragOf (p : String × PyVal) : String := p.1 ++ displayTop (idFragVal p.2)

/-- Fragments joined by a single "_" with no leading or trailing separator
(the wording of the specification for the identifier joiner). -/
def specJoin : List String → String
  | [] => ""
  | [f] => f
  | f :: g :: rest => f ++ "_" ++ specJoin (g :: rest)

/-- Python dict insertion: an existing key keeps its position and takes the
new value, a new key is appended. -/
def dictInsert (m : List (String × PyVal)) (k : String) (v : PyVal) : List (String × PyVal) :=
  if (m.map Prod.fst).contains k then
    m.map fun p => if p.1 = k then (k, v) else p
  else m ++ [(k, v)]

/-- The kwargs dict `{arg_name: value for arg_name, value in zip(...)}`. -/
def mkKwargs (ps : List (String × PyVal)) : List (String × PyVal) :=
  ps.foldl (fun m p => dictInsert m p.1 p.2) []

/-- All combinations enumerated by `build_shfiles`. -/
def combosOf (b : Builder) : List (List PyVal) :=
  crossProd (b.iteration_list.map fun a => a.values)

/-- The identifier built for one combination inside `build_shfiles`. -/
def comboJobId (b : Builder) (combo : List PyVal) : String :=
  build_job_id (((b.iteration_list.map fun a => a.id)).zip combo)

/-- The (path, content) pair written for one combination. -/
def comboEntry (b : Builder) (combo : List PyVal) : String × String :=
  (build_shfilename b (comboJobId b combo),
   build_shfile_body b (comboJobId b combo)
     (mkKwargs (((b.iteration_list.map fun a => a.name)).zip combo)))

/-- The artifact files `build_shfiles` writes, in enumeration order. -/
def build_shfiles_writes (b : Builder) : List (String × String) :=
  (combosOf b).map (comboEntry b)

/-- The identifiers produced by one run, in enumeration order. -/
def artifact_identifiers (b : Builder) : List String :=
  (combosOf b).map (comboJobId b)

/-- `self.runlist_fname`. -/
def runlist_fname (b : Builder) : String := b.runscript_outdir ++ "/runcommands.sh"

/-- The manifest content `write_spawnlist` produces from a filename list. -/
def spawnContent : List String → String
  | [] => ""
  | f :: rest => build_spawn_command f ++ "\n" ++ spawnContent rest

/-- The manifest content of one `build_shfiles` run started with an empty
`self.shfilenames`. -/
def manifest_content (b : Builder) : String :=
  spawnContent ((build_shfiles_writes b).map Prod.fst)

/-- Everything one `build_shfiles` run writes, in order: the artifacts, then
the manifest. -/
def all_writes (b : Builder) : List (String × String) :=
  build_shfiles_writes b ++ [(runlist_fname b, manifest_content b)]

/-- A file system: path to content. -/
def FS : Type := String → Option String

/-- Overwrite one path. -/
def setFS (fs : FS) (k v : String) : FS := fun q => if q = k then some v else fs q

/-- Apply a list of writes in order. -/
def applyFS : List (String × String) → FS → FS
  | [], fs => fs
  | (k, v) :: ws, fs => applyFS ws (setFS fs k v)

/-- One full generation run against a file system. -/
def runFS (b : Builder) (fs : FS) : FS := applyFS (all_writes b) fs

/-- The last value written to a path by a list of writes, if any. -/
def fwLast : List (String × String) → String → Option String
  | [], _ => none
  | (k, v) :: ws, q =>
      match fwLast ws q with
      | some r => some r
      | none => if q = k then some v else none

/-- All identifier fragments concatenated, each with its trailing "_"
(the value of the `job_id` accumulator before `job_id[:-1]`). -/
def fragsConcat : List (String × PyVal) → String
  | [] => ""
  | p :: rest => fragOf p ++ "_" ++ fragsConcat rest

/-- The builder of the end-to-end example: two axes (seeds 0/4, episodes
14/16), base command "echo Hello World", job-name "myjob". -/
def bExample : Builder :=
  { job_name := "myjob", base_command := "echo Hello World", pre_command := "",
    post_command := "", slurm_config := [("job-name", "myjob")],
    runscript_outdir := "runscripts/generated",
    iteration_list :=
      [⟨"seeds", "s", [PyVal.int 0, PyVal.int 4]⟩,
       ⟨"num_episodes", "neps", [PyVal.int 14, PyVal.int 16]⟩] }

/-- A builder whose only axis has an empty value list. -/
def bZeroAxis : Builder :=
  { job_name := "myjob", base_command := "echo Hello World", pre_command := "",
    post_command := "", slurm_config := [("job-name", "myjob")],
    runscript_outdir := "runscripts/generated",
    iteration_list := [⟨"seeds", "s", []⟩] }

/-- A builder with no axes at all. -/
def bNoAxes : Builder :=
  { job_name := "myjob", base_command := "echo Hello World", pre_command := "",
    post_command := "", slurm_config := [("job-name", "myjob")],
    runscript_outdir := "runscripts/generated", iteration_list := [] }

/-- A builder with nonempty pre/post commands and an empty config, used to
inspect the blank-line layout of a rendered body. -/
def bSections : Builder :=
  { job_name := "j", base_command := "echo b", pre_command := "echo a",
    post_command := "echo c", slurm_config := [],
    runscript_outdir := "out", iteration_list := [] }

/-- A builder whose job-name config value is the empty string. -/
def bEmptyJobName : Builder :=
  { job_name := "", base_command := "echo b", pre_command := "",
    post_command := "", slurm_config := [("job-name", "")],
    runscript_outdir := "out", iteration_list := [] }

/-- A builder with two config entries, the second one empty-valued. -/
def bTwoEntries : Builder :=
  { job_name := "j", base_command := "echo b", pre_command := "",
    post_command := "", slurm_config := [("mail-user", "m"), ("output", "")],
    runscript_outdir := "out", iteration_list := [] }

/-! ### General lemmas -/

theorem strData_append (s t : String) : (s ++ t).data = s.data ++ t.data := rfl

theorem strApp_assoc (a b c : String) : a ++ b ++ c = a ++ (b ++ c) := by
  apply String.ext
  simp [strData_append]

theorem str_empty_append (s : String) : "" ++ s = s := by
  apply String.ext
  simp [strData_append]

theorem str_append_empty (s : String) : s ++ "" = s := by
  apply String.ext
  simp [strData_append]

theorem crossProd_length {α : Type} (ls : List (List α)) :
    (crossProd ls).length = lenProd ls := by
  induction ls with
  | nil => rfl
  | cons vs rest ih =>
      rw [crossProd, lenProd, List.length_flatMap]
      have hmap : List.map (List.length ∘ fun v => (crossProd rest).map fun c => v :: c) vs
          = List.map (Function.const α (lenProd rest)) vs := by
        apply List.map_congr_left
        intro v _
        simp [Function.comp, ih]
      rw [hmap, List.map_const, List.sum_replicate, smul_eq_mul]

theorem flatMap_uniform_getElem {α β : Type} (m : Nat) :
    ∀ (l : List α) (f : α → List β) (_ : ∀ a ∈ l, (f a).length = m)
      (i j : Nat) (hi : i < l.length) (_ : j < m),
      (l.flatMap f)[i * m + j]? = (f (l.get ⟨i, hi⟩))[j]? := by
  intro l
  induction l with
  | nil => intro f hf i j hi hj; simp at hi
  | cons a l ih =>
      intro f hf i j hi hj
      rw [List.flatMap_cons]
      cases i with
      | zero =>
          have ha : (f a).length = m := hf a (List.mem_cons_self a l)
          rw [List.getElem?_append, if_pos (by omega)]
          simp
      | succ i =>
          have ha : (f a).length = m := hf a (List.mem_cons_self a l)
          rw [List.getElem?_append_right (by rw [ha]; calc
            m ≤ m + (i * m + j) := Nat.le_add_right m _
            _ = (i + 1) * m + j := by ring)]
          have harith : (i + 1) * m + j - (f a).length = i * m + j := by
            rw [ha]; have : (i + 1) * m = i * m + m := by ring
            omega
          rw [harith]
          have hi' : i < l.length := by simpa using Nat.lt_of_succ_lt_succ hi
          rw [ih f (fun x hx => hf x (List.mem_cons_of_mem a hx)) i j hi' hj]
          rfl

theorem crossProd_getElem {α : Type} [Inhabited α] :
    ∀ (ls : List (List α)) (i : Nat), i < lenProd ls →
      (crossProd ls)[i]? = some (rowCombo ls i) := by
  intro ls
  induction ls with
  | nil =>
      intro i hi
      rw [lenProd] at hi
      interval_cases i
      rfl
  | cons vs rest ih =>
      intro i hi
      rw [lenProd] at hi
      have hm : 0 < lenProd rest := by
        rcases Nat.eq_zero_or_pos (lenProd rest) with h0 | h
        · rw [h0, Nat.mul_zero] at hi; omega
        · exact h
      have hq : i / lenProd rest < vs.length := (Nat.div_lt_iff_lt_mul hm).mpr hi
      have hr : i % lenProd rest < lenProd rest := Nat.mod_lt _ hm
      have hdm := Nat.div_add_mod i (lenProd rest)
      have hdecomp : i = (i / lenProd rest) * (lenProd rest) + i % lenProd rest := by
        rw [Nat.mul_comm (i / lenProd rest) (lenProd rest)]
        omega
      have hget : vs.getD (i / lenProd rest) default = vs.get ⟨i / lenProd rest, hq⟩ := by
        rw [List.getD_eq_getElem?_getD, List.getElem?_eq_getElem hq]
        rfl
      have key := flatMap_uniform_getElem (lenProd rest) vs
        (fun v => (crossProd rest).map fun c => v :: c)
        (fun v _ => by rw [List.length_map, crossProd_length])
        (i / lenProd rest) (i % lenProd rest) hq hr
      rw [← hdecomp] at key
      rw [crossProd, key, List.getElem?_map, ih _ hr, rowCombo, hget]
      rfl

theorem crossProd_mem {α : Type} :
    ∀ (ls : List (List α)) (c : List α),
      c ∈ crossProd ls ↔ List.Forall₂ (fun v vs => v ∈ vs) c ls := by
  intro ls
  induction ls with
  | nil =>
      intro c
      simp [crossProd, List.forall₂_nil_right_iff]
  | cons vs rest ih =>
      intro c
      rw [crossProd, List.mem_flatMap, List.forall₂_cons_right_iff]
      constructor
      · rintro ⟨v, hv, hc⟩
        rw [List.mem_map] at hc
        obtain ⟨c', hc', rfl⟩ := hc
        exact ⟨v, c', hv, (ih c').mp hc', rfl⟩
      · rintro ⟨v, c', hv, hc', rfl⟩
        exact ⟨v, hv, List.mem_map.mpr ⟨c', (ih c').mpr hc', rfl⟩⟩

theorem crossProd_nodup {α : Type} :
    ∀ (ls : List (List α)), (∀ vs ∈ ls, vs.Nodup) → (crossProd ls).Nodup := by
  intro ls
  induction ls with
  | nil => intro _; simp [crossProd]
  | cons vs rest ih =>
      intro h
      rw [crossProd, List.nodup_flatMap]
      constructor
      · intro v _
        exact (ih fun ws hws => h ws (List.mem_cons_of_mem vs hws)).map
          (fun c₁ c₂ hc => by injection hc)
      · have hvs : vs.Nodup := h vs (List.mem_cons_self vs rest)
        refine hvs.imp ?_
        intro a b hab x hxa hxb
        rw [List.mem_map] at hxa hxb
        obtain ⟨c₁, _, rfl⟩ := hxa
        obtain ⟨c₂, _, heq⟩ := hxb
        injection heq with h1 _
        exact hab h1.symm

theorem crossProd_of_nil_mem {α : Type} :
    ∀ (ls : List (List α)), [] ∈ ls → crossProd ls = [] := by
  intro ls
  induction ls with
  | nil => intro h; cases h
  | cons vs rest ih =>
      intro h
      rcases List.mem_cons.mp h with h0 | h0
      · rw [crossProd, ← h0]
        rfl
      · rw [crossProd, ih h0]
        simp

theorem jobIdLoop_eq (ps : List (String × PyVal)) :
    ∀ acc : String, jobIdLoop acc ps = acc ++ fragsConcat ps := by
  induction ps with
  | nil => intro acc; rw [jobIdLoop, fragsConcat, str_append_empty]
  | cons p rest ih =>
      intro acc
      obtain ⟨i, v⟩ := p
      rw [jobIdLoop, ih, fragsConcat]
      apply String.ext
      simp [strData_append, fragOf]

theorem fragsConcat_data_ne_nil (p : String × PyVal) (ps : List (String × PyVal)) :
    (fragsConcat (p :: ps)).data ≠ [] := by
  rw [fragsConcat]
  simp [strData_append]

theorem dropLast_append_ne {α : Type} (x y : List α) (h : y ≠ []) :
    (x ++ y).dropLast = x ++ y.dropLast := by
  rw [List.dropLast_append, if_neg (by simpa using h)]

theorem strDropLast_fragsConcat :
    ∀ ps : List (String × PyVal), strDropLast (fragsConcat ps) = specJoin (ps.map fragOf) := by
  intro ps
  induction ps with
  | nil => rfl
  | cons p rest ih =>
      cases rest with
      | nil =>
          apply String.ext
          simp only [fragsConcat, str_append_empty, List.map_cons, List.map_nil, specJoin]
          rw [strDropLast, strData_append]
          exact List.dropLast_concat
      | cons q rest' =>
          apply String.ext
          have hne := fragsConcat_data_ne_nil q rest'
          have ihd : (fragsConcat (q :: rest')).data.dropLast
              = (specJoin (List.map fragOf (q :: rest'))).data := congrArg String.data ih
          show ((fragOf p ++ "_" ++ fragsConcat (q :: rest')).data).dropLast
              = (specJoin (List.map fragOf (p :: q :: rest'))).data
          rw [strData_append, strData_append, List.append_assoc, ← List.append_assoc]
          rw [dropLast_append_ne _ _ hne, ihd]
          simp only [List.map_cons, specJoin, strData_append]

theorem jobId_specJoin (ps : List (String × PyVal)) :
    build_job_id ps = specJoin (ps.map fragOf) := by
  rw [build_job_id, jobIdLoop_eq, str_empty_append, strDropLast_fragsConcat]

theorem underscore_split :
    ∀ (xs ys r₁ r₂ : List Char), '_' ∉ xs → '_' ∉ ys →
      xs ++ '_' :: r₁ = ys ++ '_' :: r₂ → xs = ys ∧ r₁ = r₂ := by
  intro xs
  induction xs with
  | nil =>
      intro ys r₁ r₂ _ hy h
      cases ys with
      | nil => simpa using h
      | cons b bs =>
          exfalso
          rw [List.nil_append] at h
          have hb : '_' = b := by injection h
          exact hy (hb ▸ List.mem_cons_self b bs)
  | cons a as ih =>
      intro ys r₁ r₂ hx hy h
      cases ys with
      | nil =>
          exfalso
          rw [List.nil_append] at h
          have ha : a = '_' := by injection h
          exact hx (ha ▸ List.mem_cons_self a as)
      | cons b bs =>
          rw [List.cons_append, List.cons_append] at h
          have hab : a = b := by injection h
          have htail : as ++ '_' :: r₁ = bs ++ '_' :: r₂ := by injection h
          have hx' : '_' ∉ as := fun hm => hx (List.mem_cons_of_mem a hm)
          have hy' : '_' ∉ bs := fun hm => hy (List.mem_cons_of_mem b hm)
          obtain ⟨h1, h2⟩ := ih bs r₁ r₂ hx' hy' htail
          exact ⟨by rw [hab, h1], h2⟩

theorem specJoin_inj :
    ∀ (l₁ l₂ : List String), l₁.length = l₂.length →
      (∀ s ∈ l₁, '_' ∉ s.data) → (∀ s ∈ l₂, '_' ∉ s.data) →
      specJoin l₁ = specJoin l₂ → l₁ = l₂ := by
  intro l₁
  induction l₁ with
  | nil =>
      intro l₂ hlen _ _ _
      cases l₂ with
      | nil => rfl
      | cons b bs => simp at hlen
  | cons a as ih =>
      intro l₂ hlen h₁ h₂ heq
      cases l₂ with
      | nil => simp at hlen
      | cons b bs =>
          cases as with
          | nil =>
              cases bs with
              | nil =>
                  have : a = b := heq
                  rw [this]
              | cons d u => simp at hlen
          | cons c t =>
              cases bs with
              | nil => simp at hlen
              | cons d u =>
                  have hd : a.data ++ '_' :: (specJoin (c :: t)).data
                      = b.data ++ '_' :: (specJoin (d :: u)).data := by
                    have := congrArg String.data heq
                    simpa [specJoin, strData_append] using this
                  have hna : '_' ∉ a.data := h₁ a (List.mem_cons_self a _)
                  have hnb : '_' ∉ b.data := h₂ b (List.mem_cons_self b _)
                  obtain ⟨hab, hrest⟩ := underscore_split _ _ _ _ hna hnb hd
                  have hab' : a = b := String.ext hab
                  have hrest' : specJoin (c :: t) = specJoin (d :: u) := String.ext hrest
                  have hlen' : (c :: t).length = (d :: u).length := by simpa using hlen
                  have h₁' : ∀ s ∈ c :: t, '_' ∉ s.data :=
                    fun s hs => h₁ s (List.mem_cons_of_mem a hs)
                  have h₂' : ∀ s ∈ d :: u, '_' ∉ s.data :=
                    fun s hs => h₂ s (List.mem_cons_of_mem b hs)
                  rw [hab', ih (d :: u) hlen' h₁' h₂' hrest']

theorem headerEntries_append (job_name_identifier : String) :
    ∀ xs ys : List (String × String),
      headerEntries job_name_identifier (xs ++ ys)
        = headerEntries job_name_identifier xs ++ headerEntries job_name_identifier ys := by
  intro xs ys
  induction xs with
  | nil => rw [List.nil_append, headerEntries, str_empty_append]
  | cons p rest ih =>
      obtain ⟨n, v⟩ := p
      rw [List.cons_append, headerEntries, headerEntries, ih, ← strApp_assoc]

theorem argsText_append :
    ∀ xs ys : List (String × PyVal), argsText (xs ++ ys) = argsText xs ++ argsText ys := by
  intro xs ys
  induction xs with
  | nil => rw [List.nil_append, argsText, str_empty_append]
  | cons p rest ih =>
      obtain ⟨k, v⟩ := p
      rw [List.cons_append, argsText, argsText, ih]
      apply String.ext
      simp [strData_append]

theorem applyFS_lookup :
    ∀ (ws : List (String × String)) (fs : FS) (q : String),
      applyFS ws fs q = (fwLast ws q).elim (fs q) some := by
  intro ws
  induction ws with
  | nil => intro fs q; rfl
  | cons w ws ih =>
      intro fs q
      obtain ⟨k, v⟩ := w
      rw [applyFS, ih, fwLast]
      cases h : fwLast ws q with
      | some r => simp
      | none =>
          by_cases hqk : q = k <;> simp [setFS, hqk]

theorem applyFS_idem (ws : List (String × String)) (fs : FS) :
    applyFS ws (applyFS ws fs) = applyFS ws fs := by
  funext q
  rw [applyFS_lookup, applyFS_lookup]
  cases h : fwLast ws q with
  | some r => simp
  | none => simp

/-- C1: for the two-axis example (seeds 0/4 with short id "s", num_episodes
14/16 with short id "neps"), base command "echo Hello World" and a config map
whose job-name is "myjob", the run produces exactly the four artifacts with
identifiers s0_neps14, s0_neps16, s4_neps14, s4_neps16 in that order; the
s4_neps16 artifact contains the header line
"#SBATCH --job-name=myjob_s4_neps16" and the main command line
"echo Hello World --seeds 4 --num_episodes 16"; and the manifest is exactly
the four "sbatch <path>" lines in the same order. -/
theorem claim_C1 :
    artifact_identifiers bExample = ["s0_neps14", "s0_neps16", "s4_neps14", "s4_neps16"]
    ∧ (build_shfiles_writes bExample).map Prod.fst =
        ["runscripts/generated/run_myjob_s0_neps14.sh",
         "runscripts/generated/run_myjob_s0_neps16.sh",
         "runscripts/generated/run_myjob_s4_neps14.sh",
         "runscripts/generated/run_myjob_s4_neps16.sh"]
    ∧ hasSub ("#SBATCH --job-name=myjob_s4_neps16\n").data
        (((build_shfiles_writes bExample).getD 3 ("", "")).2).data = true
    ∧ hasSub ("\necho Hello World --seeds 4 --num_episodes 16\n").data
        (((build_shfiles_writes bExample).getD 3 ("", "")).2).data = true
    ∧ manifest_content bExample =
        "sbatch runscripts/generated/run_myjob_s0_neps14.sh\n" ++
        "sbatch runscripts/generated/run_myjob_s0_neps16.sh\n" ++
        "sbatch runscripts/generated/run_myjob_s4_neps14.sh\n" ++
        "sbatch runscripts/generated/run_myjob_s4_neps16.sh\n" := by
  exact ⟨by decide, by decide, by decide, by decide, by decide⟩

/-- C5: when an axis value is a sequence, the identifier fragment uses only
its first element while the main command appends " --name value" with the
full sequence rendered directly; for non-sequence values both use the same
value. -/
theorem claim_C5 (b : Builder) (ps : List (String × PyVal)) (name i : String)
    (hd : PyVal) (tl : List PyVal) (n : Int) (s : String) :
    build_job_id [(i, PyVal.seq hd tl)] = i ++ displayTop hd
    ∧ fragOf (i, PyVal.seq hd tl) = i ++ displayTop hd
    ∧ build_job_id ps = specJoin (ps.map fragOf)
    ∧ build_maincommand b (ps ++ [(name, PyVal.seq hd tl)])
        = build_maincommand b ps ++ (" --" ++ name ++ " " ++ displayTop (PyVal.seq hd tl))
    ∧ displayTop (PyVal.seq hd tl) = "[" ++ reprList hd tl ++ "]"
    ∧ idFragVal (PyVal.int n) = PyVal.int n
    ∧ idFragVal (PyVal.str s) = PyVal.str s := by
  refine ⟨?_, rfl, jobId_specJoin ps, ?_, rfl, rfl, rfl⟩
  · rw [jobId_specJoin]
    rfl
  · rw [build_maincommand, build_maincommand, argsText_append, strApp_assoc]
    apply String.ext
    simp [argsText, strData_append, List.append_assoc]

/-- C7 (amended): the rendered body is the four sections joined by single
newline characters (not blank lines); since the header always ends with a
newline-terminated blank line, the pre_command is preceded by an empty line,
but no blank line separates pre_command from the main command or the main
command from the post_command unless those texts end in newlines
themselves. -/
theorem claim_C7_amended (b : Builder) (job_name_identifier : String)
    (kwargs : List (String × PyVal)) :
    build_shfile_body b job_name_identifier kwargs
      = build_slurm_header b job_name_identifier ++ "\n" ++ b.pre_command ++ "\n" ++
        build_maincommand b kwargs ++ "\n" ++ b.post_command
    ∧ ∃ t, build_slurm_header b job_name_identifier = t ++ "\n"
        ∧ build_shfile_body b job_name_identifier kwargs
          = t ++ "\n\n" ++ b.pre_command ++ "\n" ++ build_maincommand b kwargs ++ "\n" ++
            b.post_command := by
  refine ⟨rfl, "#!/bin/bash\n#\n" ++ headerEntries job_name_identifier b.slurm_config,
    rfl, ?_⟩
  apply String.ext
  simp [build_shfile_body, build_slurm_header, strData_append, List.append_assoc]

/-- C7 counterexample: with pre_command "echo a", base command "echo b" and
post_command "echo c", the rendered body has the pre_command, main command
and post_command on consecutive lines: no blank line follows "echo a" or
"echo b" anywhere in the text, refuting the claimed blank-line separation of
the four sections. -/
theorem claim_C7_cex :
    build_shfile_body bSections "" [] = "#!/bin/bash\n#\n\n\necho a\necho b\necho c"
    ∧ hasSub ("echo a\n\n").data (build_shfile_body bSections "" []).data = false
    ∧ hasSub ("echo b\n\n").data (build_shfile_body bSections "" []).data = false := by
  exact ⟨by decide, by decide, by decide⟩

/-- C8: generation is idempotent at the file-system level: applying the
writes of one run (all artifacts, then the manifest) twice with identical
inputs leaves exactly the file system that one run produces, since every
artifact path and the manifest path are overwritten with the same content. -/
theorem claim_C8 (b : Builder) (fs : FS) : runFS b (runFS b fs) = runFS b fs :=
  applyFS_idem (all_writes b) fs

/-- C10: with an empty iteration_list the run still produces exactly one
artifact: the empty cross product yields the single empty combination with
empty identifier, the file path ends in "run_{job_name}_.sh" (trailing
underscore), the main command is exactly the base command, the job-name
config value is rendered unsuffixed, and the manifest holds exactly one
submission line. -/
theorem claim_C10 (b : Builder) (h : b.iteration_list = []) :
    combosOf b = [[]]
    ∧ build_job_id [] = ""
    ∧ build_shfiles_writes b
        = [(b.runscript_outdir ++ "/run_" ++ b.job_name ++ "_.sh", build_shfile_body b "" [])]
    ∧ build_maincommand b [] = b.base_command
    ∧ (∀ n v : String, renderedVal "" n v = v)
    ∧ manifest_content b
        = "sbatch " ++ (b.runscript_outdir ++ "/run_" ++ b.job_name ++ "_.sh") ++ "\n"
    ∧ all_writes b
        = [(b.runscript_outdir ++ "/run_" ++ b.job_name ++ "_.sh", build_shfile_body b "" []),
           (runlist_fname b,
            "sbatch " ++ (b.runscript_outdir ++ "/run_" ++ b.job_name ++ "_.sh") ++ "\n")] := by
  have hcombos : combosOf b = [[]] := by rw [combosOf, h]; rfl
  have hid : comboJobId b [] = "" := by rw [comboJobId, h]; rfl
  have hkw : mkKwargs (((b.iteration_list.map fun a => a.name)).zip ([] : List PyVal)) = [] := by
    rw [h]; rfl
  have hfn : build_shfilename b "" = b.runscript_outdir ++ "/run_" ++ b.job_name ++ "_.sh" := by
    rw [build_shfilename, str_append_empty, strApp_assoc (b.runscript_outdir ++ "/run_" ++ b.job_name) "_" ".sh"]
    rw [show ("_" : String) ++ ".sh" = "_.sh" from rfl]
  have hentry : comboEntry b []
      = (b.runscript_outdir ++ "/run_" ++ b.job_name ++ "_.sh", build_shfile_body b "" []) := by
    rw [comboEntry, hid, hkw, hfn]
  have hwrites : build_shfiles_writes b
      = [(b.runscript_outdir ++ "/run_" ++ b.job_name ++ "_.sh", build_shfile_body b "" [])] := by
    rw [build_shfiles_writes, hcombos, List.map_cons, List.map_nil, hentry]
  have hrv : ∀ n v : String, renderedVal "" n v = v := by
    intro n v
    rw [renderedVal, if_neg (by simp)]
  have hmani : manifest_content b
      = "sbatch " ++ (b.runscript_outdir ++ "/run_" ++ b.job_name ++ "_.sh") ++ "\n" := by
    rw [manifest_content, hwrites, List.map_cons, List.map_nil, spawnContent, spawnContent,
      str_append_empty, build_spawn_command, strApp_assoc]
  refine ⟨hcombos, rfl, hwrites, str_append_empty _, hrv, hmani, ?_⟩
  rw [all_writes, hwrites, hmani]
  rfl

/-- C10 witness: the conclusions of `claim_C10` evaluated on the concrete
axis-free builder `bNoAxes`. -/
theorem claim_C10_witness :
    combosOf bNoAxes = [[]]
    ∧ manifest_content bNoAxes
        = "sbatch " ++ (bNoAxes.runscript_outdir ++ "/run_" ++ bNoAxes.job_name ++ "_.sh") ++ "\n" :=
  ⟨(claim_C10 bNoAxes rfl).1, (claim_C10 bNoAxes rfl).2.2.2.2.2.1⟩

/-- C2 (amended): the expansion of axis value lists of sizes n1..nk always
enumerates exactly n1*...*nk combinations, in row-major order (last axis
varies fastest), and a list is a combination exactly when it picks one value
per axis in order; the combinations are moreover pairwise distinct provided
every axis value list is itself duplicate-free (without that proviso
duplicate values yield duplicate combinations). -/
theorem claim_C2_amended {α : Type} [Inhabited α] (ls : List (List α)) :
    (crossProd ls).length = lenProd ls
    ∧ (∀ c, c ∈ crossProd ls ↔ List.Forall₂ (fun v vs => v ∈ vs) c ls)
    ∧ (∀ i, i < lenProd ls → (crossProd ls)[i]? = some (rowCombo ls i))
    ∧ ((∀ vs ∈ ls, vs.Nodup) → (crossProd ls).Nodup) :=
  ⟨crossProd_length ls, crossProd_mem ls, fun i hi => crossProd_getElem ls i hi,
   crossProd_nodup ls⟩

/-- C2 witness: the amended theorem applied to the concrete axis lists
[[0,1],[2]] with its hypotheses discharged there. -/
theorem claim_C2_amended_witness :
    (crossProd [[0, 1], [2]])[1]? = some (rowCombo [[0, 1], [2]] 1)
    ∧ (crossProd ([[0, 1], [2]] : List (List Nat))).Nodup :=
  ⟨(claim_C2_amended [[0, 1], [2]]).2.2.1 1 (by decide),
   (claim_C2_amended [[0, 1], [2]]).2.2.2 (by decide)⟩

/-- C2 counterexample: an axis whose value list repeats a value produces the
same combination twice, so the combinations are not in general pairwise
distinct as the claim states. -/
theorem claim_C2_cex :
    crossProd [[PyVal.int 0, PyVal.int 0]] = [[PyVal.int 0], [PyVal.int 0]]
    ∧ ¬ (crossProd [[PyVal.int 0, PyVal.int 0]]).Nodup := by
  constructor
  · rfl
  · intro h
    rw [show crossProd [[PyVal.int 0, PyVal.int 0]] = [[PyVal.int 0], [PyVal.int 0]] from rfl] at h
    exact (List.nodup_cons.mp h).1 (List.mem_singleton_self _)

/-- C3 (amended): the code performs no validation and raises no ConfigError:
for every builder one of whose axes has an empty value list, the run writes
no artifact file but still writes the manifest file with empty content (so
it is not the case that nothing is written). -/
theorem claim_C3_amended (b : Builder) (h : ∃ ax ∈ b.iteration_list, ax.values = []) :
    build_shfiles_writes b = []
    ∧ manifest_content b = ""
    ∧ all_writes b = [(runlist_fname b, "")] := by
  obtain ⟨ax, hmem, hvals⟩ := h
  have hnil : ([] : List PyVal) ∈ b.iteration_list.map fun a => a.values := by
    rw [← hvals]
    exact List.mem_map_of_mem _ hmem
  have hcombos : combosOf b = [] := by
    rw [combosOf, crossProd_of_nil_mem _ hnil]
  have hwrites : build_shfiles_writes b = [] := by
    rw [build_shfiles_writes, hcombos, List.map_nil]
  have hmani : manifest_content b = "" := by
    rw [manifest_content, hwrites, List.map_nil, spawnContent]
  refine ⟨hwrites, hmani, ?_⟩
  rw [all_writes, hwrites, hmani, List.nil_append]

/-- C3 witness: the amended behaviour evaluated on the concrete builder
`bZeroAxis`, whose only axis has zero values. -/
theorem claim_C3_amended_witness :
    build_shfiles_writes bZeroAxis = []
    ∧ all_writes bZeroAxis = [(runlist_fname bZeroAxis, "")] := by
  have h := claim_C3_amended bZeroAxis ⟨⟨"seeds", "s", []⟩, List.mem_singleton_self _, rfl⟩
  exact ⟨h.1, h.2.2⟩

/-- C3 counterexample: on `bZeroAxis` (an axis with zero values) generation
does not abort before I/O with nothing written: it writes the manifest file
`runscripts/generated/runcommands.sh` (with empty content), and no
ConfigError exists anywhere in the code. -/
theorem claim_C3_cex :
    all_writes bZeroAxis = [("runscripts/generated/runcommands.sh", "")]
    ∧ all_writes bZeroAxis ≠ [] := by
  exact ⟨by decide, by decide⟩

/-- C4 (amended): the identifier is the concatenation, per axis in declared
order, of the short id followed by the stringified value (first element for
sequence values), with fragments joined by a single "_" and no leading or
trailing separator; space characters in values are NOT replaced (the code
performs no whitespace substitution). -/
theorem claim_C4_amended (ps : List (String × PyVal)) :
    build_job_id ps = specJoin (ps.map fragOf)
    ∧ (∀ i v, fragOf (i, v) = i ++ displayTop (idFragVal v))
    ∧ specJoin [] = ""
    ∧ (∀ f, specJoin [f] = f)
    ∧ (∀ f g rest, specJoin (f :: g :: rest) = f ++ "_" ++ specJoin (g :: rest)) :=
  ⟨jobId_specJoin ps, fun _ _ => rfl, rfl, fun _ => rfl, fun _ _ _ => rfl⟩

/-- C4 counterexample: for a value containing a space the identifier keeps
the space unchanged ("sa b"), it is not the claimed double-underscore form
"sa__b". -/
theorem claim_C4_cex :
    build_job_id [("s", PyVal.str "a b")] = "sa b"
    ∧ ("sa b" : String).data.contains ' ' = true
    ∧ build_job_id [("s", PyVal.str "a b")] ≠ "sa__b" :=
  ⟨by decide, by decide, by decide⟩

theorem cfg_split (cfg : List (String × String)) (i : Nat) (h : i < cfg.length) :
    cfg = cfg.take i ++ cfg.get ⟨i, h⟩ :: cfg.drop (i + 1) := by
  conv_lhs => rw [← List.take_append_drop i cfg]
  congr 1
  rw [List.get_eq_getElem]
  exact List.drop_eq_getElem_cons h

/-- C6 (amended): in the rendered header, the omission test applies to the
value after job-name suffixing: an entry whose rendered value is empty
contributes nothing (erasing it leaves the header unchanged), an entry whose
rendered value is non-empty contributes exactly its own
"#SBATCH --name=value" line at its position; the job-name entry's rendered
value is the original when the identifier is empty and
original ++ "_" ++ identifier when it is non-empty, and every other entry is
rendered with its original value. -/
theorem claim_C6_amended (b : Builder) (job_name_identifier : String) (i : Nat)
    (h : i < b.slurm_config.length) :
    (renderedVal job_name_identifier (b.slurm_config.get ⟨i, h⟩).1
        (b.slurm_config.get ⟨i, h⟩).2 = "" →
      build_slurm_header b job_name_identifier
        = build_slurm_header { b with slurm_config := b.slurm_config.eraseIdx i }
            job_name_identifier)
    ∧ (renderedVal job_name_identifier (b.slurm_config.get ⟨i, h⟩).1
        (b.slurm_config.get ⟨i, h⟩).2 ≠ "" →
      build_slurm_header b job_name_identifier
        = ("#!/bin/bash\n#\n" ++ headerEntries job_name_identifier (b.slurm_config.take i))
          ++ ("#SBATCH --" ++ (b.slurm_config.get ⟨i, h⟩).1 ++ "="
              ++ renderedVal job_name_identifier (b.slurm_config.get ⟨i, h⟩).1
                  (b.slurm_config.get ⟨i, h⟩).2 ++ "\n")
          ++ (headerEntries job_name_identifier (b.slurm_config.drop (i + 1)) ++ "\n"))
    ∧ (∀ v, renderedVal job_name_identifier "job-name" v
        = if 0 < job_name_identifier.length then v ++ "_" ++ job_name_identifier else v)
    ∧ (∀ n v, n ≠ "job-name" → renderedVal job_name_identifier n v = v) := by
  have hsplit := cfg_split b.slurm_config i h
  have hhdr : headerEntries job_name_identifier b.slurm_config
      = headerEntries job_name_identifier (b.slurm_config.take i)
        ++ ((if renderedVal job_name_identifier (b.slurm_config.get ⟨i, h⟩).1
                (b.slurm_config.get ⟨i, h⟩).2 = "" then ""
             else "#SBATCH --" ++ (b.slurm_config.get ⟨i, h⟩).1 ++ "="
               ++ renderedVal job_name_identifier (b.slurm_config.get ⟨i, h⟩).1
                   (b.slurm_config.get ⟨i, h⟩).2 ++ "\n")
            ++ headerEntries job_name_identifier (b.slurm_config.drop (i + 1))) := by
    conv_lhs => rw [hsplit]
    rw [headerEntries_append]
    congr 1
  refine ⟨?_, ?_, ?_, ?_⟩
  · intro hrv
    rw [build_slurm_header, build_slurm_header, hhdr, hrv]
    rw [if_pos rfl, str_empty_append]
    have : ({ b with slurm_config := b.slurm_config.eraseIdx i } : Builder).slurm_config
        = b.slurm_config.take i ++ b.slurm_config.drop (i + 1) :=
      List.eraseIdx_eq_take_drop_succ b.slurm_config i
    rw [this, headerEntries_append, strApp_assoc, strApp_assoc]
  · intro hrv
    rw [build_slurm_header, hhdr, if_neg hrv]
    apply String.ext
    simp [strData_append, List.append_assoc]
  · intro v
    rw [renderedVal]
    by_cases hl : 0 < job_name_identifier.length
    · rw [if_pos ⟨rfl, hl⟩, if_pos hl]
    · rw [if_neg (fun hc => hl hc.2), if_neg hl]
  · intro n v hn
    rw [renderedVal, if_neg (fun hc => hn hc.1)]

/-- C6 witness: on the concrete builder `bTwoEntries` with identifier "x" and
index 1 (entry ("output", "")), the empty rendered value lets the entry be
erased without changing the header. -/
theorem claim_C6_amended_witness :
    build_slurm_header bTwoEntries "x"
      = build_slurm_header
          { bTwoEntries with slurm_config := bTwoEntries.slurm_config.eraseIdx 1 } "x" :=
  (claim_C6_amended bTwoEntries "x" 1 (by decide)).1 (by decide)

/-- C6 counterexample: a config whose job-name value is the empty string
still produces an "#SBATCH --job-name=_x" line when the identifier is "x",
because the truthiness test runs after the identifier suffix is appended; so
an entry with empty value can appear in the rendered header, refuting the
claim as stated. -/
theorem claim_C6_cex :
    build_slurm_header bEmptyJobName "x" = "#!/bin/bash\n#\n#SBATCH --job-name=_x\n\n"
    ∧ hasSub ("#SBATCH --job-name=").data (build_slurm_header bEmptyJobName "x").data
        = true :=
  ⟨by decide, by decide⟩

theorem zip_frag_inj :
    ∀ (ids : List String) (c₁ c₂ : List PyVal),
      ids.length = c₁.length → ids.length = c₂.length →
      (∀ v₁ ∈ c₁, ∀ v₂ ∈ c₂,
        displayTop (idFragVal v₁) = displayTop (idFragVal v₂) → v₁ = v₂) →
      (ids.zip c₁).map fragOf = (ids.zip c₂).map fragOf → c₁ = c₂ := by
  intro ids
  induction ids with
  | nil =>
      intro c₁ c₂ h1 h2 _ _
      rw [List.length_eq_zero.mp h1.symm, List.length_eq_zero.mp h2.symm]
  | cons i ids ih =>
      intro c₁ c₂ h1 h2 hinj hm
      cases c₁ with
      | nil => simp at h1
      | cons v₁ t₁ =>
          cases c₂ with
          | nil => simp at h2
          | cons v₂ t₂ =>
              rw [List.zip_cons_cons, List.zip_cons_cons, List.map_cons, List.map_cons] at hm
              have hh : fragOf (i, v₁) = fragOf (i, v₂) := by injection hm
              have ht : (ids.zip t₁).map fragOf = (ids.zip t₂).map fragOf := by injection hm
              have hdata := congrArg String.data hh
              rw [show fragOf (i, v₁) = i ++ displayTop (idFragVal v₁) from rfl,
                show fragOf (i, v₂) = i ++ displayTop (idFragVal v₂) from rfl,
                strData_append, strData_append] at hdata
              have hd : displayTop (idFragVal v₁) = displayTop (idFragVal v₂) :=
                String.ext (List.append_cancel_left hdata)
              have hv : v₁ = v₂ :=
                hinj v₁ (List.mem_cons_self v₁ t₁) v₂ (List.mem_cons_self v₂ t₂) hd
              have ht' : t₁ = t₂ :=
                ih t₁ t₂ (by simpa using h1) (by simpa using h2)
                  (fun a ha b hb => hinj a (List.mem_cons_of_mem v₁ ha)
                    b (List.mem_cons_of_mem v₂ hb)) ht
              rw [hv, ht']

/-- C9 (amended): the identifier builder is a pure deterministic function of
the axis ids and the combination; but distinct combinations do not always get
distinct identifiers (sequence values sharing a first element collide, see
the counterexample).  Collision-freedom does hold whenever the short ids and
the displayed values contain no underscore and the displayed value determines
the value: under those hypotheses equal identifiers force equal
combinations. -/
theorem claim_C9_amended (ids : List String) (c₁ c₂ : List PyVal)
    (hl₁ : ids.length = c₁.length) (hl₂ : ids.length = c₂.length)
    (hids : ∀ s ∈ ids, '_' ∉ s.data)
    (hv₁ : ∀ v ∈ c₁, '_' ∉ (displayTop (idFragVal v)).data)
    (hv₂ : ∀ v ∈ c₂, '_' ∉ (displayTop (idFragVal v)).data)
    (hinj : ∀ v₁ ∈ c₁, ∀ v₂ ∈ c₂,
      displayTop (idFragVal v₁) = displayTop (idFragVal v₂) → v₁ = v₂) :
    build_job_id (ids.zip c₁) = build_job_id (ids.zip c₁)
    ∧ (build_job_id (ids.zip c₁) = build_job_id (ids.zip c₂) → c₁ = c₂) := by
  refine ⟨rfl, ?_⟩
  intro heq
  rw [jobId_specJoin, jobId_specJoin] at heq
  have hfr : ∀ (c : List PyVal), (∀ v ∈ c, '_' ∉ (displayTop (idFragVal v)).data) →
      ∀ s ∈ (ids.zip c).map fragOf, '_' ∉ s.data := by
    intro c hc s hs
    rw [List.mem_map] at hs
    obtain ⟨⟨idv, v⟩, hpv, rfl⟩ := hs
    obtain ⟨hidm, hvm⟩ := List.of_mem_zip hpv
    rw [show fragOf (idv, v) = idv ++ displayTop (idFragVal v) from rfl, strData_append]
    intro hmem
    rcases List.mem_append.mp hmem with hm | hm
    · exact hids idv hidm hm
    · exact hc v hvm hm
  have hlen : ((ids.zip c₁).map fragOf).length = ((ids.zip c₂).map fragOf).length := by
    rw [List.length_map, List.length_map, List.length_zip, List.length_zip,
      ← hl₁, ← hl₂]
  have hmapeq :=
    specJoin_inj _ _ hlen (hfr c₁ hv₁) (hfr c₂ hv₂) heq
  exact zip_frag_inj ids c₁ c₂ hl₁ hl₂ hinj hmapeq

/-- C9 witness: the amended theorem applied to the single scalar axis
("s", "a") with all hypotheses discharged concretely. -/
theorem claim_C9_amended_witness :
    build_job_id [("s", PyVal.str "a")] = build_job_id [("s", PyVal.str "a")]
    ∧ ([PyVal.str "a"] : List PyVal) = [PyVal.str "a"] := by
  have h := claim_C9_amended ["s"] [PyVal.str "a"] [PyVal.str "a"] rfl rfl
    (by decide) (by decide) (by decide)
    (fun v₁ h₁ v₂ h₂ _ => by
      rw [List.mem_singleton.mp h₁, List.mem_singleton.mp h₂])
  exact ⟨h.1, h.2 rfl⟩

/-- C9 counterexample: two distinct combinations — the sequences [1, 2] and
[1, 3] for the same axis — receive the same identifier "s1", because only the
first element of a sequence enters the identifier; so identifiers are not
collision-free across distinct combinations. -/
theorem claim_C9_cex :
    build_job_id [("s", PyVal.seq (PyVal.int 1) [PyVal.int 2])] = "s1"
    ∧ build_job_id [("s", PyVal.seq (PyVal.int 1) [PyVal.int 3])] = "s1"
    ∧ PyVal.seq (PyVal.int 1) [PyVal.int 2] ≠ PyVal.seq (PyVal.int 1) [PyVal.int 3] := by
  refine ⟨by decide, by decide, ?_⟩
  intro hc
  injection hc with h1 h2
  have h3 : PyVal.int 2 = PyVal.int 3 := by injection h2
  have h4 : (2 : Int) = 3 := by injection h3
  exact absurd h4 (by decide)
